import Mathlib

/-!
Verification of the Torch-Markup interactive annotation frontend
(`frontend/src/components/AnnotationCanvas.vue` and the Pinia annotation
store `frontend/src/stores/annotation.js`).

The store state and its operations are embedded shallowly: JS arrays become
`List`, JS numbers used as indices become `Int` (they start at `-1`),
geometry numbers become `ℚ`, and `JSON.parse(JSON.stringify(...))` deep
copies become the identity (Lean lists are values, so snapshots never alias
the live array).  Server responses and `Date.now()` are passed in as
explicit parameters.
-/

/-- A bounding-box annotation in normalized YOLO coordinates, as held in
`annotations.value` of the store. -/
structure Annotation where
  id : Nat
  category_id : Nat
  x_center : ℚ
  y_center : ℚ
  width : ℚ
  height : ℚ
deriving Repr, DecidableEq

instance : Inhabited Annotation :=
  ⟨{ id := 0, category_id := 0, x_center := 0, y_center := 0, width := 0, height := 0 }⟩

/-- An image record as held in the prefetch queue / `currentImage` /
`processedHistory`: only the `id` field and the embedded annotation list are
ever read by the store logic. -/
structure Image where
  id : Nat
  annotations : List Annotation
deriving Repr, DecidableEq

/-- The fields of the Pinia annotation store that the undo/navigation logic
touches (`stores/annotation.js`). -/
structure Store where
  currentImage : Option Image
  annotations : List Annotation
  history : List (List Annotation)
  historyIndex : Int
  imageQueue : List Image
  processedHistory : List Image
  historyPosition : Int
  isInHistory : Bool
deriving Repr, DecidableEq

/-- The store's initial / `reset()` state. -/
def initStore : Store :=
  { currentImage := none
    annotations := []
    history := []
    historyIndex := -1
    imageQueue := []
    processedHistory := []
    historyPosition := -1
    isInHistory := false }

/-- JS `arr[i]` for a possibly negative or out-of-range index: `undefined`
(here `none`) outside `[0, length)`. -/
def jsIndex (l : List α) (i : Int) : Option α :=
  if i < 0 then none else l[i.toNat]?

/-- JS `arr.slice(0, e)`: a negative end index counts from the end of the
array. -/
def jsSlice (l : List α) (e : Int) : List α :=
  if e < 0 then l.take ((l.length : Int) + e).toNat else l.take e.toNat

/-- Computed `canUndo = historyIndex > 0`. -/
def canUndo (s : Store) : Bool := decide (0 < s.historyIndex)

/-- Computed `canRedo = historyIndex < history.length - 1`. -/
def canRedo (s : Store) : Bool :=
  decide (s.historyIndex < (s.history.length : Int) - 1)

/-- Computed `canGoPrevious = processedHistory.length > 0`. -/
def canGoPrevious (s : Store) : Bool := decide (0 < s.processedHistory.length)

/-- Computed
`canGoNext = isInHistory && historyPosition < processedHistory.length - 1`. -/
def canGoNext (s : Store) : Bool :=
  s.isInHistory && decide (s.historyPosition < (s.processedHistory.length : Int) - 1)

/-- `saveHistory()`: truncate forward history when in the middle, push a deep
snapshot of the live annotations, point the index at it, and evict the oldest
snapshot when the history exceeds 50 entries. -/
def saveHistory (s : Store) : Store :=
  let h1 :=
    if s.historyIndex < (s.history.length : Int) - 1 then
      jsSlice s.history (s.historyIndex + 1)
    else s.history
  let h2 := h1 ++ [s.annotations]
  if 50 < h2.length then
    { s with history := h2.drop 1, historyIndex := (h2.length : Int) - 2 }
  else
    { s with history := h2, historyIndex := (h2.length : Int) - 1 }

/-- `undo()`: guarded by `canUndo`; moves the index back and replaces the live
annotations with that snapshot.  (Under the guard the index is in range in
every reachable state; the `getD []` default is never hit there.) -/
def undo (s : Store) : Store :=
  if canUndo s then
    { s with historyIndex := s.historyIndex - 1
             annotations := (jsIndex s.history (s.historyIndex - 1)).getD [] }
  else s

/-- `redo()`: guarded by `canRedo`; symmetric to `undo`. -/
def redo (s : Store) : Store :=
  if canRedo s then
    { s with historyIndex := s.historyIndex + 1
             annotations := (jsIndex s.history (s.historyIndex + 1)).getD [] }
  else s

/-- The annotation built by ` addAnnotation`: `id` is `Date.now()` (passed in
as `newId`), and `category_id` is `selectedCategory.value?.id ||
annotation.category_id` — note the JS `||` falls through on a `0` id. -/
def mkNewAnnotation (selCat : Option Nat) (newId : Nat) (a : Annotation) : Annotation :=
  { a with id := newId
           category_id :=
             match selCat with
             | some c => if c = 0 then a.category_id else c
             | none => a.category_id }

/-- ` addAnnotation(annotation)`: push the new annotation, then `saveHistory`. -/
def addAnnotation (s : Store) (selCat : Option Nat) (newId : Nat) (a : Annotation) : Store :=
  saveHistory { s with annotations := s.annotations ++ [ mkNewAnnotation selCat newId a] }

/-- A partial update object `{...}` as passed to ` updateAnnotation` (the call
sites update geometry and/or category, never the id). -/
structure AnnUpdate where
  category_id : Option Nat := none
  x_center : Option ℚ := none
  y_center : Option ℚ := none
  width : Option ℚ := none
  height : Option ℚ := none
deriving Repr, DecidableEq

/-- JS object-spread merge `{ ...a, ...u }` over the update fields. -/
def applyUpdate (a : Annotation) (u : AnnUpdate) : Annotation :=
  { a with category_id := u.category_id.getD a.category_id
           x_center := u.x_center.getD a.x_center
           y_center := u.y_center.getD a.y_center
           width := u.width.getD a.width
           height := u.height.getD a.height }

/-- ` updateAnnotation(id, updates)`: `findIndex` by id; when found, merge in
place and `saveHistory`; when not found, do nothing. -/
def updateAnnotation (s : Store) (id : Nat) (u : AnnUpdate) : Store :=
  match s.annotations.findIdx? (fun a => a.id == id) with
  | some i =>
      saveHistory
        { s with annotations :=
            s.annotations.set i (applyUpdate ((s.annotations.get? i).getD default) u) }
  | none => s

/-- ` removeAnnotation(id)`: `findIndex` by id; when found, `splice(i, 1)` and
`saveHistory`; when not found, do nothing. -/
def removeAnnotation (s : Store) (id : Nat) : Store :=
  match s.annotations.findIdx? (fun a => a.id == id) with
  | some i => saveHistory { s with annotations := s.annotations.eraseIdx i }
  | none => s

/-- `getNextFromQueue()`: pop the head of the prefetch queue into
`currentImage`, install its annotations (`|| []`) as the live set, and
`saveHistory`.  Returns the popped image (`null` on an empty queue). -/
def getNextFromQueue (s : Store) : Store × Option Image :=
  match s.imageQueue with
  | [] => (s, none)
  | img :: rest =>
      let s1 := { s with imageQueue := rest
                         currentImage := some img
                         annotations := img.annotations }
      (saveHistory s1, some img)

/-- `fetchImage(imageId)` after the GET resolves: install the fetched record
and `saveHistory`.  The response is passed in as `img`. -/
def fetchImage (s : Store) (img : Image) : Store :=
  saveHistory { s with currentImage := some img, annotations := img.annotations }

/-- `recordToProcessedHistory(image, imageAnnotations)`: truncate any
forward-branching processed history, push `{...image, annotations: deep
copy}`, point the cursor at it, leave browsing mode, and evict the oldest
entry past 50. -/
def recordToProcessedHistory (s : Store) (img : Image) (anns : List Annotation) : Store :=
  let ph1 :=
    if s.isInHistory ∧ s.historyPosition < (s.processedHistory.length : Int) - 1 then
      jsSlice s.processedHistory (s.historyPosition + 1)
    else s.processedHistory
  let ph2 := ph1 ++ [{ img with annotations := anns }]
  if 50 < ph2.length then
    { s with processedHistory := ph2.drop 1
             historyPosition := (ph2.length : Int) - 2
             isInHistory := false }
  else
    { s with processedHistory := ph2
             historyPosition := (ph2.length : Int) - 1
             isInHistory := false }

/-- The save payload row `{category_id, x_center, y_center, width, height}` —
`saveAnnotations` strips the (provisional) id; the dropped id is modelled as
`0` since nothing ever reads it back. -/
def stripId (a : Annotation) : Annotation := { a with id := 0 }

/-- `saveAnnotations(skip)`, with the outcome of `api.post` passed in as
`postOk`.  On `currentImage == null` it returns early; when the POST throws,
the exception propagates before any state mutation (there is no mutation
above the `await api.post` besides building the local payload), so the store
is returned unchanged; on success it records to processed history unless
browsing, and returns the saved count. -/
def saveAnnotations (s : Store) (postOk : Bool) : Store × Option Nat :=
  match s.currentImage with
  | none => (s, none)
  | some img =>
      let annotationsData := s.annotations.map stripId
      if postOk then
        if s.isInHistory then (s, some annotationsData.length)
        else (recordToProcessedHistory s img annotationsData, some annotationsData.length)
      else (s, none)

/-- The response of `GET /images/{imageId}`: the image record with that id
and its current (authoritative) annotation set; the set is supplied by the
oracle `serverAnns`, and the record's id equals the requested id by the
endpoint's contract. -/
def fetchedImage (serverAnns : Nat → List Annotation) (imageId : Nat) : Image :=
  { id := imageId, annotations := serverAnns imageId }

/-- The shared reload step of `goToPreviousImage` / `goToNextImage`: install
the server's record for `imageId` as the current image and annotation set and
clear the undo history (`history = []`, `historyIndex = -1`) — each is
followed by `saveHistory()` at the call sites, mirroring the source. -/
def reloadFor (serverAnns : Nat → List Annotation) (s : Store) (imageId : Nat) : Store :=
  { s with currentImage := some (fetchedImage serverAnns imageId)
           annotations := (fetchedImage serverAnns imageId).annotations
           history := []
           historyIndex := -1 }

/-- `goToPreviousImage()`, with `GET /images/{id}` modelled by `fetchedImage
serverAnns`.  Guarded by `canGoPrevious`; when entering browsing mode it
first pushes the current image (unless it is already the top entry by id),
then decrements the cursor and, when the cursor still lands on an entry,
reloads that image from the server and resets the undo history to one
snapshot. -/
def goToPreviousImage (serverAnns : Nat → List Annotation) (s : Store) : Store × Option Image :=
  if canGoPrevious s then
    let s1 :=
      if ¬ s.isInHistory ∧ s.currentImage.isSome then
        match s.currentImage with
        | some cur =>
            if (match s.processedHistory.getLast? with
                | some last => decide (last.id ≠ cur.id)
                | none => true) then
              let ph := s.processedHistory ++ [{ cur with annotations := s.annotations }]
              { s with processedHistory := ph, historyPosition := (ph.length : Int) - 1 }
            else s
        | none => s
      else s
    let s2 := { s1 with isInHistory := true, historyPosition := s1.historyPosition - 1 }
    match jsIndex s2.processedHistory s2.historyPosition with
    | some prevImage =>
        let s3 := saveHistory (reloadFor serverAnns s2 prevImage.id)
        (s3, s3.currentImage)
    | none => (s2, s2.currentImage)
  else (s, none)

/-- `goToNextImage()`, with the server oracle as above.  Guarded by
`canGoNext`; increments the cursor, reloads that entry's image when it
exists, and leaves browsing mode exactly when the cursor sits on the last
processed entry afterwards. -/
def goToNextImage (serverAnns : Nat → List Annotation) (s : Store) : Store × Option Image :=
  if canGoNext s then
    let s1 := { s with historyPosition := s.historyPosition + 1 }
    let s2 :=
      match jsIndex s1.processedHistory s1.historyPosition with
      | some nextImage => saveHistory (reloadFor serverAnns s1 nextImage.id)
      | none => s1
    let s3 :=
      if s2.historyPosition = (s2.processedHistory.length : Int) - 1 then
        { s2 with isInHistory := false }
      else s2
    (s3, s3.currentImage)
  else (s, none)

/-!  Geometry of the canvas component (`AnnotationCanvas.vue`).  -/

/-- A pixel-space box `{x, y, w, h}` (top-left + extent). -/
structure Box where
  x : ℚ
  y : ℚ
  w : ℚ
  h : ℚ
deriving Repr, DecidableEq

/-- A 2-D point. -/
structure Point where
  x : ℚ
  y : ℚ
deriving Repr, DecidableEq

/-- The view transform `{scale, offsetX, offsetY}`. -/
structure ViewT where
  scale : ℚ
  offsetX : ℚ
  offsetY : ℚ
deriving Repr, DecidableEq

/-- `screenToImage(screenX, screenY)`. -/
def screenToImage (t : ViewT) (p : Point) : Point :=
  { x := (p.x - t.offsetX) / t.scale, y := (p.y - t.offsetY) / t.scale }

/-- The image→screen mapping used throughout the draw code
(`box.x * scale + offset`), the inverse of `screenToImage`. -/
def imageToScreen (t : ViewT) (p : Point) : Point :=
  { x := p.x * t.scale + t.offsetX, y := p.y * t.scale + t.offsetY }

/-- `handleWheel(e)`: multiplicative zoom factor from the wheel direction,
clamp the scale to `[0.1, 10]`, and recompute the offset from the pre-zoom
image coordinates of the pointer. -/
def handleWheel (t : ViewT) (mouse : Point) (deltaY : ℚ) : ViewT :=
  let zoomFactor : ℚ := if 0 < deltaY then 9/10 else 11/10
  let newScale := min (max (t.scale * zoomFactor) (1/10)) 10
  let imgPoint := screenToImage t mouse
  { scale := newScale
    offsetX := mouse.x - imgPoint.x * newScale
    offsetY := mouse.y - imgPoint.y * newScale }

/-- Normalisation of the working box at the end of a draw drag
(`handleMouseUp`, lines 363–365): flip negative extents to canonical
top-left/positive form. -/
def normalizeBox (b : Box) : Box :=
  let p1 : ℚ × ℚ := if b.w < 0 then (b.x + b.w, -b.w) else (b.x, b.w)
  let p2 : ℚ × ℚ := if b.h < 0 then (b.y + b.h, -b.h) else (b.y, b.h)
  { x := p1.1, y := p2.1, w := p1.2, h := p2.2 }

/-- The save payload of a finished draw: category plus YOLO-normalised
geometry (the emitted annotation carries no id yet; modelled with id 0). -/
def drawnAnnotation (catId : Nat) (b : Box) (imgW imgH : ℚ) : Annotation :=
  { id := 0
    category_id := catId
    x_center := (b.x + b.w / 2) / imgW
    y_center := (b.y + b.h / 2) / imgH
    width := b.w / imgW
    height := b.h / imgH }

/-- The drawing branch of `handleMouseUp`: normalise the working box, and
emit an `add` mutation exactly when both final extents exceed 5 pixels
(the image is present; its dimensions are `imgW × imgH`).  `none` means the
draw is silently discarded. -/
def mouseUpDrawing (b : Box) (catId : Nat) (imgW imgH : ℚ) : Option Annotation :=
  let nb := normalizeBox b
  if 5 < nb.w ∧ 5 < nb.h then some ( drawnAnnotation catId nb imgW imgH)
  else none

/-- The eight resize handle directions. -/
inductive Handle
  | tl | t | tr | r | br | b | bl | l
deriving Repr, DecidableEq

/-- The edge coordinates `(x1, y1, x2, y2)` of `updateDragBox` after the
`switch` on the handle type, before the minimum-size clamp. -/
structure Edges where
  x1 : ℚ
  y1 : ℚ
  x2 : ℚ
  y2 : ℚ
deriving Repr, DecidableEq

/-- The `switch (handleType)` of `updateDragBox`: move the edges named by the
handle to the pointer's image-space position. -/
def dragEdges (handleType : Handle) (imgPoint : Point) (b : Box) : Edges :=
  let e : Edges := { x1 := b.x, y1 := b.y, x2 := b.x + b.w, y2 := b.y + b.h }
  match handleType with
  | .tl => { e with x1 := imgPoint.x, y1 := imgPoint.y }
  | .t => { e with y1 := imgPoint.y }
  | .tr => { e with x2 := imgPoint.x, y1 := imgPoint.y }
  | .r => { e with x2 := imgPoint.x }
  | .br => { e with x2 := imgPoint.x, y2 := imgPoint.y }
  | .b => { e with y2 := imgPoint.y }
  | .bl => { e with x1 := imgPoint.x, y2 := imgPoint.y }
  | .l => { e with x1 := imgPoint.x }

/-- `updateDragBox(handleType, imgPoint)` on the working box: apply the edge
moves, then enforce the minimum size by `if (x2 - x1 < 10) x2 = x1 + 10` and
likewise for `y2`. -/
def updateDragBox (handleType : Handle) (imgPoint : Point) (b : Box) : Box :=
  let e := dragEdges handleType imgPoint b
  let x2 := if e.x2 - e.x1 < 10 then e.x1 + 10 else e.x2
  let y2 := if e.y2 - e.y1 < 10 then e.y1 + 10 else e.y2
  { x := e.x1, y := e.y1, w := x2 - e.x1, h := y2 - e.y1 }

/-!  Operation sequences over the store, and the history invariant.  -/

/-- A mutating store operation
(` addAnnotation` / ` updateAnnotation` / ` removeAnnotation`). -/
inductive MutOp
  | add (selCat : Option Nat) (newId : Nat) (a : Annotation)
  | update (id : Nat) (u : AnnUpdate)
  | remove (id : Nat)

/-- Apply one mutating operation. -/
def applyMutOp (s : Store) : MutOp → Store
  | .add selCat newId a => addAnnotation s selCat newId a
  | .update id u => updateAnnotation s id u
  | .remove id => removeAnnotation s id

/-- Apply a sequence of mutating operations, oldest first. -/
def applyMutOps (s : Store) (ops : List MutOp) : Store :=
  ops.foldl applyMutOp s

/-- Any store operation that touches the annotation set or the undo history:
queue advance, direct image fetch, the three mutations, undo and redo. -/
inductive StoreOp
  | next
  | fetch (img : Image)
  | mutate (op : MutOp)
  | undoOp
  | redoOp

/-- Apply one store operation. -/
def applyStoreOp (s : Store) : StoreOp → Store
  | .next => (getNextFromQueue s).1
  | .fetch img => fetchImage s img
  | .mutate op => applyMutOp s op
  | .undoOp => undo s
  | .redoOp => redo s

/-- Apply a sequence of store operations, oldest first. -/
def applyStoreOps (s : Store) (ops : List StoreOp) : Store :=
  ops.foldl applyStoreOp s

/-- The undo-history is well formed: the index is an in-range natural number
and the live annotation set is exactly the snapshot at the index. -/
def HistWf (s : Store) : Prop :=
  ∃ i : Nat, s.historyIndex = (i : Int)
    ∧ i < s.history.length
    ∧ s.history[i]? = some s.annotations

/-- The store invariant of the Annotation Store: either the history is still
empty (index parked at `-1`), or it is well formed. -/
def StoreWf (s : Store) : Prop :=
  (s.history = [] ∧ s.historyIndex = -1) ∨ HistWf s

/-- The index additionally sits at the top of the history (the state after
any `saveHistory`). -/
def HistTop (s : Store) : Prop :=
  s.history ≠ []
    ∧ s.history.getLast? = some s.annotations
    ∧ s.historyIndex = (s.history.length : Int) - 1

lemma histTop_histWf {s : Store} (h : HistTop s) : HistWf s := by
  obtain ⟨hne, hlast, hidx⟩ := h
  have hlen : 0 < s.history.length := List.length_pos.mpr hne
  refine ⟨s.history.length - 1, ?_, ?_, ?_⟩
  · omega
  · omega
  · rw [← List.getLast?_eq_getElem?]; exact hlast

/-- Unconditional description of `saveHistory`: whatever branch is taken, the
new history is non-empty, its last snapshot is the (unchanged) live
annotation set, the index points at that last snapshot, and no other store
field moves. -/
lemma saveHistory_spec (s : Store) :
    (saveHistory s).history ≠ []
    ∧ (saveHistory s).history.getLast? = some s.annotations
    ∧ (saveHistory s).historyIndex = ((saveHistory s).history.length : Int) - 1
    ∧ (saveHistory s).annotations = s.annotations
    ∧ (saveHistory s).currentImage = s.currentImage
    ∧ (saveHistory s).imageQueue = s.imageQueue
    ∧ (saveHistory s).processedHistory = s.processedHistory
    ∧ (saveHistory s).historyPosition = s.historyPosition
    ∧ (saveHistory s).isInHistory = s.isInHistory := by
  unfold saveHistory
  set h1 := if s.historyIndex < (s.history.length : Int) - 1 then
      jsSlice s.history (s.historyIndex + 1)
    else s.history with hh1
  set h2 := h1 ++ [s.annotations] with hh2
  by_cases hlen : 50 < h2.length
  · have h1ne : h1 ≠ [] := by
      intro hcon
      rw [hh2, hcon] at hlen
      simp at hlen
    have hdrop : h2.drop 1 = h1.drop 1 ++ [s.annotations] := by
      rw [hh2]
      exact List.drop_append_of_le_length (by
        have := List.length_pos.mpr h1ne; omega)
    simp only [if_pos hlen]
    refine ⟨?_, ?_, ?_, by trivial, by trivial, by trivial, by trivial, by trivial, by trivial⟩
    · simp [hdrop]
    · simp [hdrop]
    · simp only [List.length_drop]
      have : 1 ≤ h2.length := by omega
      push_cast [Nat.cast_sub this]
      ring
  · simp only [if_neg hlen]
    refine ⟨?_, ?_, ?_, by trivial, by trivial, by trivial, by trivial, by trivial, by trivial⟩
    · simp [hh2]
    · simp [hh2]
    · trivial

lemma saveHistory_top (s : Store) : HistTop (saveHistory s) := by
  obtain ⟨h1, h2, h3, h4, -⟩ := saveHistory_spec s
  exact ⟨h1, h4 ▸ h2, h3⟩

lemma jsIndex_nonneg (l : List α) (i : Int) (h : 0 ≤ i) : jsIndex l i = l[i.toNat]? := by
  simp [jsIndex, not_lt.mpr h]

lemma storeWf_of_save (s : Store) : StoreWf (saveHistory s) :=
  Or.inr (histTop_histWf (saveHistory_top s))

lemma applyMutOp_wf (s : Store) (op : MutOp) (h : StoreWf s) :
    StoreWf (applyMutOp s op) := by
  cases op with
  | add selCat newId a => exact storeWf_of_save _
  | update id u =>
      show StoreWf ( updateAnnotation s id u)
      rcases hfind : s.annotations.findIdx? (fun a => a.id == id) with _ | i
      · simpa only [ updateAnnotation, hfind] using h
      · simp only [ updateAnnotation, hfind]
        exact storeWf_of_save _
  | remove id =>
      show StoreWf ( removeAnnotation s id)
      rcases hfind : s.annotations.findIdx? (fun a => a.id == id) with _ | i
      · simpa only [ removeAnnotation, hfind] using h
      · simp only [ removeAnnotation, hfind]
        exact storeWf_of_save _

lemma undo_wf (s : Store) (h : StoreWf s) : StoreWf (undo s) := by
  by_cases hc : 0 < s.historyIndex
  · rcases h with ⟨-, hidx⟩ | ⟨i, hi, hlt, -⟩
    · omega
    · have hb : canUndo s = true := by simp [canUndo, hc]
      have hi1 : 0 < i := by omega
      have hnn : (0 : Int) ≤ s.historyIndex - 1 := by omega
      have htn : (s.historyIndex - 1).toNat = i - 1 := by omega
      simp only [undo, hb, if_true]
      refine Or.inr ⟨i - 1, ?_, ?_, ?_⟩
      · show s.historyIndex - 1 = ((i - 1 : Nat) : Int)
        omega
      · show i - 1 < s.history.length
        omega
      · show s.history[(i-1)]? = some ((jsIndex s.history (s.historyIndex - 1)).getD [])
        rw [jsIndex_nonneg _ _ hnn, htn, List.getElem?_eq_getElem (show i - 1 < s.history.length by omega)]
        simp
  · have hb : canUndo s = false := by simp [canUndo, hc]
    simp only [undo, hb, if_false]
    exact h

lemma redo_wf (s : Store) (h : StoreWf s) : StoreWf (redo s) := by
  by_cases hc : s.historyIndex < (s.history.length : Int) - 1
  · rcases h with ⟨hemp, hidx⟩ | ⟨i, hi, hlt, -⟩
    · rw [hemp] at hc
      simp only [List.length_nil] at hc
      omega
    · have hb : canRedo s = true := by simp [canRedo, hc]
      have hlt2 : i + 1 < s.history.length := by omega
      have hnn : (0 : Int) ≤ s.historyIndex + 1 := by omega
      have htn : (s.historyIndex + 1).toNat = i + 1 := by omega
      simp only [redo, hb, if_true]
      refine Or.inr ⟨i + 1, ?_, ?_, ?_⟩
      · show s.historyIndex + 1 = ((i + 1 : Nat) : Int)
        omega
      · show i + 1 < s.history.length
        omega
      · show s.history[(i+1)]? = some ((jsIndex s.history (s.historyIndex + 1)).getD [])
        rw [jsIndex_nonneg _ _ hnn, htn, List.getElem?_eq_getElem hlt2]
        simp
  · have hb : canRedo s = false := by simp [canRedo, hc]
    simp only [redo, hb, if_false]
    exact h

lemma applyStoreOp_wf (s : Store) (op : StoreOp) (h : StoreWf s) :
    StoreWf (applyStoreOp s op) := by
  cases op with
  | next =>
      show StoreWf (getNextFromQueue s).1
      rcases hq : s.imageQueue with _ | ⟨img, rest⟩
      · simpa only [getNextFromQueue, hq] using h
      · simp only [getNextFromQueue, hq]
        exact storeWf_of_save _
  | fetch img => exact storeWf_of_save _
  | mutate op => exact applyMutOp_wf s op h
  | undoOp => exact undo_wf s h
  | redoOp => exact redo_wf s h

lemma applyStoreOps_wf (s : Store) (ops : List StoreOp) (h : StoreWf s) :
    StoreWf (applyStoreOps s ops) := by
  induction ops generalizing s with
  | nil => exact h
  | cons op rest ih => exact ih _ (applyStoreOp_wf s op h)

lemma applyStoreOps_cons (s : Store) (op : StoreOp) (ops : List StoreOp) :
    applyStoreOps s (op :: ops) = applyStoreOps (applyStoreOp s op) ops := rfl

/-!  Claim C1: what `getNextFromQueue` does to the undo history.  -/

/-- The drawn annotation of the concrete C1 run (before ` addAnnotation`
stamps its provisional id). -/
def c1DrawnAnn : Annotation :=
  { id := 0, category_id := 1, x_center := 0, y_center := 0, width := 0, height := 0 }

/-- The previous image's annotation as stored (provisional id 100). -/
def c1PrevAnn : Annotation := { c1DrawnAnn with id := 100 }

/-- A store that has just been given a two-image prefetch queue. -/
def c1Start : Store :=
  { initStore with imageQueue := [{ id := 1, annotations := [] }, { id := 2, annotations := [] }] }

/-- The reachable state after advancing onto image 1 and drawing one box. -/
def c1Store : Store :=
  applyStoreOps c1Start [StoreOp.next, StoreOp.mutate (MutOp.add none 100 c1DrawnAnn)]

/-- C1: advancing to the next queued image does NOT reset the Annotation
Store's undo history.  In the concrete reachable state `c1Store` (image 1
loaded, one box drawn), popping image 2 from the queue leaves a three-entry
history with index 2, `canUndo` stays true, and pressing undo restores the
PREVIOUS image's annotation set onto the new image — where the spec requires
a single-snapshot history, index 0 and `canUndo = false`. -/
theorem C1_advance_keeps_previous_history :
    (getNextFromQueue c1Store).1.history = [[], [c1PrevAnn], []]
    ∧ (getNextFromQueue c1Store).1.historyIndex = 2
    ∧ canUndo (getNextFromQueue c1Store).1 = true
    ∧ (undo (getNextFromQueue c1Store).1).annotations = [c1PrevAnn] := by
  decide

/-!  Claim C5: minimum-size draw rejection.  -/

/-- C5: on pointer-up ending a draw, after normalising the working box, an
`add` is emitted exactly when both final extents exceed 5 pixels; the
normalised extents are the absolute values of the dragged extents, and a
too-small box is silently discarded (`none`), never an error. -/
theorem C5_min_size_draw (b : Box) (catId : Nat) (imgW imgH : ℚ) :
    ((mouseUpDrawing b catId imgW imgH).isSome = true ↔ 5 < |b.w| ∧ 5 < |b.h|)
    ∧ (normalizeBox b).w = |b.w| ∧ (normalizeBox b).h = |b.h| := by
  have hw : (normalizeBox b).w = |b.w| := by
    unfold normalizeBox
    by_cases hbw : b.w < 0
    · simp [hbw, abs_of_neg hbw]
    · simp [hbw, abs_of_nonneg (not_lt.mp hbw)]
  have hh : (normalizeBox b).h = |b.h| := by
    unfold normalizeBox
    by_cases hbh : b.h < 0
    · simp [hbh, abs_of_neg hbh]
    · simp [hbh, abs_of_nonneg (not_lt.mp hbh)]
  refine ⟨?_, hw, hh⟩
  show (if 5 < (normalizeBox b).w ∧ 5 < (normalizeBox b).h then
      some ( drawnAnnotation catId (normalizeBox b) imgW imgH) else none).isSome = true
    ↔ 5 < |b.w| ∧ 5 < |b.h|
  rw [hw, hh]
  by_cases hc : 5 < |b.w| ∧ 5 < |b.h|
  · simp [hc]
  · simp [hc]

/-!  Claim C6: resize minimum-extent clamp.  -/

/-- C6 counterexample: dragging the left-edge handle of the box
`(0,0) 20×20` to pointer x = 15 crosses within the 10-pixel minimum of the
right (anchor) edge at x = 20.  The claim requires the moving edge to stop
at x = 10 with the anchor fixed (result `(10,0) 10×20`); the code instead
keeps the dragged edge at 15 and pushes the anchor out to 25 (result
`(15,0) 10×20`). -/
theorem C6_counterexample :
    updateDragBox Handle.l { x := 15, y := 5 } { x := 0, y := 0, w := 20, h := 20 }
      = { x := 15, y := 0, w := 10, h := 20 }
    ∧ updateDragBox Handle.l { x := 15, y := 5 } { x := 0, y := 0, w := 20, h := 20 }
      ≠ { x := 10, y := 0, w := 10, h := 20 } := by
  have hval : updateDragBox Handle.l { x := 15, y := 5 } { x := 0, y := 0, w := 20, h := 20 }
      = { x := 15, y := 0, w := 10, h := 20 } := by
    show Box.mk 15 0 ((if (0:ℚ) + 20 - 15 < 10 then 15 + 10 else 0 + 20) - 15)
        ((if (0:ℚ) + 20 - 0 < 10 then 0 + 10 else 0 + 20) - 0)
      = Box.mk 15 0 10 20
    norm_num
  refine ⟨hval, ?_⟩
  rw [hval]
  simp only [Box.mk.injEq, ne_eq]
  norm_num

/-- C6 (amended): for every handle and pointer position the resulting box has
width and height at least 10 (exactly `max (requested extent) 10`, so exactly
10 whenever the drag crossed within the minimum), and its top-left corner is
the post-drag `(x1, y1)`; the clamp always moves the `x2`/`y2` edge, so the
anchor edge stays fixed only for right/bottom-moving handles, while for
left/top-moving handles the dragged edge keeps the pointer position and the
opposite edge is shifted. -/
theorem C6_resize_min_extent (handleType : Handle) (imgPoint : Point) (b : Box) :
    (updateDragBox handleType imgPoint b).x = (dragEdges handleType imgPoint b).x1
    ∧ (updateDragBox handleType imgPoint b).y = (dragEdges handleType imgPoint b).y1
    ∧ (updateDragBox handleType imgPoint b).w
        = max ((dragEdges handleType imgPoint b).x2 - (dragEdges handleType imgPoint b).x1) 10
    ∧ (updateDragBox handleType imgPoint b).h
        = max ((dragEdges handleType imgPoint b).y2 - (dragEdges handleType imgPoint b).y1) 10
    ∧ 10 ≤ (updateDragBox handleType imgPoint b).w
    ∧ 10 ≤ (updateDragBox handleType imgPoint b).h := by
  refine ⟨rfl, rfl, ?_, ?_, ?_, ?_⟩
  all_goals
    set e := dragEdges handleType imgPoint b with he
  · show (if e.x2 - e.x1 < 10 then e.x1 + 10 else e.x2) - e.x1 = max (e.x2 - e.x1) 10
    by_cases hx : e.x2 - e.x1 < 10
    · rw [if_pos hx, max_eq_right (le_of_lt hx)]
      ring
    · rw [if_neg hx, max_eq_left (not_lt.mp hx)]
  · show (if e.y2 - e.y1 < 10 then e.y1 + 10 else e.y2) - e.y1 = max (e.y2 - e.y1) 10
    by_cases hy : e.y2 - e.y1 < 10
    · rw [if_pos hy, max_eq_right (le_of_lt hy)]
      ring
    · rw [if_neg hy, max_eq_left (not_lt.mp hy)]
  · show 10 ≤ (if e.x2 - e.x1 < 10 then e.x1 + 10 else e.x2) - e.x1
    by_cases hx : e.x2 - e.x1 < 10
    · rw [if_pos hx]
      linarith
    · rw [if_neg hx]
      linarith [not_lt.mp hx]
  · show 10 ≤ (if e.y2 - e.y1 < 10 then e.y1 + 10 else e.y2) - e.y1
    by_cases hy : e.y2 - e.y1 < 10
    · rw [if_pos hy]
      linarith
    · rw [if_neg hy]
      linarith [not_lt.mp hy]

/-!  Claim C7: wheel zoom.  -/

/-- C7: on a wheel event the new scale is the old scale times 1.1 (zoom in,
`deltaY < 0`) or 0.9 (zoom out, `deltaY > 0`), clamped into `[0.1, 10]`; and
because the pointer position is converted to image coordinates before the
scale changes, the image point that was under the pointer maps back to the
same screen position under the recomputed offset (exactly, in ℚ). -/
theorem C7_wheel_zoom (t : ViewT) (mouse : Point) (deltaY : ℚ) (hs : 0 < t.scale) :
    (deltaY < 0 → (handleWheel t mouse deltaY).scale
        = min (max (t.scale * (11/10)) (1/10)) 10)
    ∧ (0 < deltaY → (handleWheel t mouse deltaY).scale
        = min (max (t.scale * (9/10)) (1/10)) 10)
    ∧ 1/10 ≤ (handleWheel t mouse deltaY).scale
    ∧ (handleWheel t mouse deltaY).scale ≤ 10
    ∧ imageToScreen t (screenToImage t mouse) = mouse
    ∧ imageToScreen (handleWheel t mouse deltaY) (screenToImage t mouse) = mouse := by
  obtain ⟨mx, my⟩ := mouse
  have hsne : t.scale ≠ 0 := ne_of_gt hs
  refine ⟨?_, ?_, ?_, ?_, ?_, ?_⟩
  · intro hneg
    show min (max (t.scale * (if 0 < deltaY then (9:ℚ)/10 else 11/10)) (1/10)) 10
        = min (max (t.scale * (11/10)) (1/10)) 10
    rw [if_neg (by linarith : ¬ (0:ℚ) < deltaY)]
  · intro hpos
    show min (max (t.scale * (if 0 < deltaY then (9:ℚ)/10 else 11/10)) (1/10)) 10
        = min (max (t.scale * (9/10)) (1/10)) 10
    rw [if_pos hpos]
  · show 1/10 ≤ min (max (t.scale * (if 0 < deltaY then (9:ℚ)/10 else 11/10)) (1/10)) 10
    exact le_min (le_max_right _ _) (by norm_num)
  · show min (max (t.scale * (if 0 < deltaY then (9:ℚ)/10 else 11/10)) (1/10)) 10 ≤ 10
    exact min_le_right _ _
  · simp only [imageToScreen, screenToImage, Point.mk.injEq]
    constructor
    · field_simp
    · field_simp
  · simp only [handleWheel, imageToScreen, screenToImage, Point.mk.injEq]
    constructor
    · ring
    · ring

/-- Witness for C7: the spec's own scenario, wheel-zoom at screen point
`(400, 300)` with `scale = 1`, `offset = (0, 0)`, `deltaY < 0`. -/
theorem C7_wheel_zoom_witness :
    ((-1 : ℚ) < 0 → (handleWheel { scale := 1, offsetX := 0, offsetY := 0 }
        { x := 400, y := 300 } (-1)).scale
        = min (max ((1:ℚ) * (11/10)) (1/10)) 10)
    ∧ ((0:ℚ) < -1 → (handleWheel { scale := 1, offsetX := 0, offsetY := 0 }
        { x := 400, y := 300 } (-1)).scale
        = min (max ((1:ℚ) * (9/10)) (1/10)) 10)
    ∧ (1:ℚ)/10 ≤ (handleWheel { scale := 1, offsetX := 0, offsetY := 0 }
        { x := 400, y := 300 } (-1)).scale
    ∧ (handleWheel { scale := 1, offsetX := 0, offsetY := 0 }
        { x := 400, y := 300 } (-1)).scale ≤ 10
    ∧ imageToScreen { scale := 1, offsetX := 0, offsetY := 0 }
        (screenToImage { scale := 1, offsetX := 0, offsetY := 0 } { x := 400, y := 300 })
        = { x := 400, y := 300 }
    ∧ imageToScreen (handleWheel { scale := 1, offsetX := 0, offsetY := 0 }
          { x := 400, y := 300 } (-1))
        (screenToImage { scale := 1, offsetX := 0, offsetY := 0 } { x := 400, y := 300 })
        = { x := 400, y := 300 } :=
  C7_wheel_zoom { scale := 1, offsetX := 0, offsetY := 0 } { x := 400, y := 300 } (-1)
    (by norm_num)

/-!  Claim C8: a failed save leaves the store untouched.  -/

/-- C8: when the save POST throws, `saveAnnotations` leaves the whole store —
in particular the annotations array, the undo history, the history index,
and the processed-image history — exactly as it was, so the user may
retry. -/
theorem C8_failed_save_preserves_state (s : Store) :
    (saveAnnotations s false).1 = s
    ∧ (saveAnnotations s false).1.annotations = s.annotations
    ∧ (saveAnnotations s false).1.history = s.history
    ∧ (saveAnnotations s false).1.historyIndex = s.historyIndex
    ∧ (saveAnnotations s false).1.processedHistory = s.processedHistory := by
  have h : (saveAnnotations s false).1 = s := by
    rcases hc : s.currentImage with _ | img <;> simp [saveAnnotations, hc]
  exact ⟨h, by rw [h], by rw [h], by rw [h], by rw [h]⟩

/-!  Claim C10: update/remove with an unknown id.  -/

lemma findIdx_of_absent (l : List Annotation) (annId : Nat)
    (h : ∀ a ∈ l, a.id ≠ annId) : l.findIdx? (fun a => a.id == annId) = none := by
  rw [List.findIdx?_eq_none_iff]
  intro a ha
  simpa using h a ha

/-- C10: calling ` updateAnnotation` or ` removeAnnotation` with an id that
matches no annotation in the current set is a complete no-op: the store (its
annotations array, history and history index included) is returned unchanged
and nothing is appended to the undo history. -/
theorem C10_missing_id_noop (s : Store) (annId : Nat) (u : AnnUpdate)
    (h : ∀ a ∈ s.annotations, a.id ≠ annId) :
    updateAnnotation s annId u = s ∧ removeAnnotation s annId = s := by
  have hf := findIdx_of_absent s.annotations annId h
  constructor
  · simp only [ updateAnnotation, hf]
  · simp only [ removeAnnotation, hf]

/-- The concrete store of the C10 witness: one annotation with id 1. -/
def c10Store : Store :=
  { initStore with annotations :=
      [{ id := 1, category_id := 1, x_center := 0, y_center := 0, width := 0, height := 0 }] }

/-- Witness for C10: updating or removing id 2 in a store that only holds
id 1 changes nothing. -/
theorem C10_missing_id_noop_witness :
    updateAnnotation c10Store 2 {} = c10Store ∧ removeAnnotation c10Store 2 = c10Store :=
  C10_missing_id_noop c10Store 2 {} (by decide)

/-!  Claims C2/C3: undo/redo laws and the store invariant.  -/

lemma undo_noop (u : Store) (hb : canUndo u = false) : undo u = u := by
  unfold undo
  rw [hb]
  simp

lemma redo_noop (u : Store) (hb : canRedo u = false) : redo u = u := by
  unfold redo
  rw [hb]
  simp

lemma undo_step (u : Store) (h : HistWf u) :
    (undo u).history = u.history
    ∧ (undo u).historyIndex = max 0 (u.historyIndex - 1)
    ∧ HistWf (undo u) := by
  obtain ⟨i, hi, hlt, hget⟩ := h
  by_cases hc : 0 < u.historyIndex
  · have hb : canUndo u = true := by simp [canUndo, hc]
    have hu : undo u =
        { u with
          historyIndex := u.historyIndex - 1
          annotations := (jsIndex u.history (u.historyIndex - 1)).getD [] } := by
      unfold undo
      rw [hb]
      simp
    have hi1 : 0 < i := by omega
    rw [hu]
    refine ⟨rfl, ?_, ?_⟩
    · show u.historyIndex - 1 = max 0 (u.historyIndex - 1)
      omega
    · refine ⟨i - 1, ?_, ?_, ?_⟩
      · show u.historyIndex - 1 = ((i - 1 : Nat) : Int)
        omega
      · show i - 1 < u.history.length
        omega
      · show u.history[(i-1)]? = some ((jsIndex u.history (u.historyIndex - 1)).getD [])
        rw [jsIndex_nonneg _ _ (by omega : (0:Int) ≤ u.historyIndex - 1)]
        have htn : (u.historyIndex - 1).toNat = i - 1 := by omega
        rw [htn, List.getElem?_eq_getElem (show i - 1 < u.history.length by omega)]
        simp
  · have hb : canUndo u = false := by simp [canUndo, hc]
    rw [undo_noop u hb]
    exact ⟨rfl, by omega, ⟨i, hi, hlt, hget⟩⟩

lemma redo_step (u : Store) (h : HistWf u) :
    (redo u).history = u.history
    ∧ (redo u).historyIndex = min ((u.history.length : Int) - 1) (u.historyIndex + 1)
    ∧ HistWf (redo u) := by
  obtain ⟨i, hi, hlt, hget⟩ := h
  by_cases hc : u.historyIndex < (u.history.length : Int) - 1
  · have hb : canRedo u = true := by simp [canRedo, hc]
    have hu : redo u =
        { u with
          historyIndex := u.historyIndex + 1
          annotations := (jsIndex u.history (u.historyIndex + 1)).getD [] } := by
      unfold redo
      rw [hb]
      simp
    rw [hu]
    refine ⟨rfl, ?_, ?_⟩
    · show u.historyIndex + 1 = min ((u.history.length : Int) - 1) (u.historyIndex + 1)
      omega
    · refine ⟨i + 1, ?_, ?_, ?_⟩
      · show u.historyIndex + 1 = ((i + 1 : Nat) : Int)
        omega
      · show i + 1 < u.history.length
        omega
      · show u.history[(i+1)]? = some ((jsIndex u.history (u.historyIndex + 1)).getD [])
        rw [jsIndex_nonneg _ _ (by omega : (0:Int) ≤ u.historyIndex + 1)]
        have htn : (u.historyIndex + 1).toNat = i + 1 := by omega
        rw [htn, List.getElem?_eq_getElem (show i + 1 < u.history.length by omega)]
        simp
  · have hb : canRedo u = false := by simp [canRedo, hc]
    rw [redo_noop u hb]
    exact ⟨rfl, by omega, ⟨i, hi, hlt, hget⟩⟩

lemma undo_iter (n : Nat) (s : Store) (h : HistWf s) :
    (undo^[n] s).history = s.history
    ∧ (undo^[n] s).historyIndex = max 0 (s.historyIndex - n)
    ∧ HistWf (undo^[n] s) := by
  induction n with
  | zero =>
      refine ⟨rfl, ?_, h⟩
      obtain ⟨i, hi, -, -⟩ := h
      show s.historyIndex = max 0 (s.historyIndex - ((0 : Nat) : Int))
      omega
  | succ n ih =>
      obtain ⟨ih1, ih2, ihwf⟩ := ih
      obtain ⟨st1, st2, stwf⟩ := undo_step _ ihwf
      rw [Function.iterate_succ_apply']
      refine ⟨st1.trans ih1, ?_, stwf⟩
      rw [st2, ih2]
      omega

lemma redo_iter (n : Nat) (s : Store) (h : HistWf s) :
    (redo^[n] s).history = s.history
    ∧ (redo^[n] s).historyIndex = min ((s.history.length : Int) - 1) (s.historyIndex + n)
    ∧ HistWf (redo^[n] s) := by
  induction n with
  | zero =>
      refine ⟨rfl, ?_, h⟩
      obtain ⟨i, hi, hlt, -⟩ := h
      show s.historyIndex = min ((s.history.length : Int) - 1) (s.historyIndex + ((0 : Nat) : Int))
      omega
  | succ n ih =>
      obtain ⟨ih1, ih2, ihwf⟩ := ih
      obtain ⟨st1, st2, stwf⟩ := redo_step _ ihwf
      rw [Function.iterate_succ_apply']
      refine ⟨st1.trans ih1, ?_, stwf⟩
      rw [st2, ih2, ih1]
      obtain ⟨i, hi, hlt, -⟩ := h
      omega

lemma applyMutOp_top (s : Store) (op : MutOp) (h : HistTop s) :
    HistTop (applyMutOp s op) := by
  cases op with
  | add selCat newId a => exact saveHistory_top _
  | update id u =>
      show HistTop ( updateAnnotation s id u)
      rcases hfind : s.annotations.findIdx? (fun a => a.id == id) with _ | i
      · simpa only [ updateAnnotation, hfind] using h
      · simp only [ updateAnnotation, hfind]
        exact saveHistory_top _
  | remove id =>
      show HistTop ( removeAnnotation s id)
      rcases hfind : s.annotations.findIdx? (fun a => a.id == id) with _ | i
      · simpa only [ removeAnnotation, hfind] using h
      · simp only [ removeAnnotation, hfind]
        exact saveHistory_top _

lemma applyMutOps_top (s : Store) (ops : List MutOp) (h : HistTop s) :
    HistTop (applyMutOps s ops) := by
  induction ops generalizing s with
  | nil => exact h
  | cons op rest ih => exact ih _ (applyMutOp_top s op h)

/-- C2: from a freshly loaded image (history is the single snapshot of the
live set, index 0), after any sequence of `n` mutating operations, `n`
undos followed by `n` redos reproduce the final annotation set; moreover
`undo` at index 0 is a no-op, `redo` with the index at the last snapshot is
a no-op, and `undo`/`redo` on the empty-history initial store are no-ops —
never errors. -/
theorem C2_undo_redo_laws (s : Store) (ops : List MutOp)
    (hist1 : s.history = [s.annotations]) (hidx0 : s.historyIndex = 0) :
    (redo^[ops.length] (undo^[ops.length] (applyMutOps s ops))).annotations
      = (applyMutOps s ops).annotations
    ∧ undo s = s
    ∧ redo (applyMutOps s ops) = applyMutOps s ops
    ∧ undo initStore = initStore
    ∧ redo initStore = initStore := by
  have htop0 : HistTop s := by
    refine ⟨by rw [hist1]; simp, by rw [hist1]; simp, by rw [hist1, hidx0]; simp⟩
  have htop := applyMutOps_top s ops htop0
  set sf := applyMutOps s ops with hsf
  obtain ⟨hne, hlast, hidx⟩ := htop
  refine ⟨?_, ?_, ?_, ?_, ?_⟩
  · obtain ⟨u1, u2, uwf⟩ := undo_iter ops.length sf (histTop_histWf ⟨hne, hlast, hidx⟩)
    obtain ⟨r1, r2, rwf⟩ := redo_iter ops.length _ uwf
    obtain ⟨j, hj, hjlt, hjget⟩ := rwf
    set r := redo^[ops.length] (undo^[ops.length] sf) with hr
    have hrh : r.history = sf.history := r1.trans u1
    have hridx : r.historyIndex = (sf.history.length : Int) - 1 := by
      rw [r2, u2, u1, hidx]
      have hlen : 0 < sf.history.length := List.length_pos.mpr hne
      omega
    have hjval : j = sf.history.length - 1 := by
      rw [hridx] at hj
      have hlen : 0 < sf.history.length := List.length_pos.mpr hne
      omega
    rw [hrh, hjval] at hjget
    rw [← List.getLast?_eq_getElem?] at hjget
    rw [hlast] at hjget
    exact (Option.some_injective _ hjget).symm
  · exact undo_noop s (by simp [canUndo, hidx0])
  · refine redo_noop sf ?_
    have hlen : 0 < sf.history.length := List.length_pos.mpr hne
    simp only [canRedo, hidx]
    simp
  · exact undo_noop initStore (by decide)
  · exact redo_noop initStore (by decide)

/-- The fresh store of the C2 witness: empty annotation set just loaded. -/
def c2Store : Store := { initStore with history := [[]], historyIndex := 0 }

/-- The mutation sequence of the C2 witness: draw two boxes, then delete the
first. -/
def c2Ops : List MutOp :=
  [MutOp.add (some 1) 101 c1DrawnAnn, MutOp.add (some 1) 102 c1DrawnAnn,
   MutOp.remove 101]

/-- Witness for C2 at a concrete fresh store and three mutations. -/
theorem C2_undo_redo_laws_witness :
    (redo^[c2Ops.length] (undo^[c2Ops.length] (applyMutOps c2Store c2Ops))).annotations
      = (applyMutOps c2Store c2Ops).annotations
    ∧ undo c2Store = c2Store
    ∧ redo (applyMutOps c2Store c2Ops) = applyMutOps c2Store c2Ops
    ∧ undo initStore = initStore
    ∧ redo initStore = initStore :=
  C2_undo_redo_laws c2Store c2Ops rfl rfl

/-- C3: every state reached from the initial store by any sequence of
operations (queue advance, image fetch, add/update/remove, undo, redo)
satisfies the store invariant `StoreWf`: either the history is still empty
with the index parked at -1, or `0 ≤ historyIndex < history.length` and the
live annotations array equals the history snapshot at the current index. -/
theorem C3_store_invariant (ops : List StoreOp) :
    StoreWf (applyStoreOps initStore ops) :=
  applyStoreOps_wf initStore ops (Or.inl ⟨rfl, rfl⟩)

/-!  Claim C4: linear-undo truncation.  -/

/-- `saveHistory` in the truncation case: when the index sits strictly below
the last snapshot (and the history is within its 50-entry bound, so no
eviction fires), the forward snapshots are discarded and the new snapshot is
appended right after the current index. -/
lemma saveHistory_truncate (t : Store) (i : Nat) (hidx : t.historyIndex = (i : Int))
    (hmid : (i : Int) < (t.history.length : Int) - 1) (hbound : t.history.length ≤ 50) :
    saveHistory t =
      { t with
        history := t.history.take (i + 1) ++ [t.annotations]
        historyIndex := (i : Int) + 1 } := by
  have hcond : t.historyIndex < (t.history.length : Int) - 1 := by
    rw [hidx]
    exact hmid
  have hslice : jsSlice t.history (t.historyIndex + 1) = t.history.take (i + 1) := by
    rw [hidx]
    unfold jsSlice
    rw [if_neg (by omega : ¬ ((i : Int) + 1 < 0))]
    congr 1
  have hlen2 : (t.history.take (i + 1) ++ [t.annotations]).length = i + 2 := by
    simp only [List.length_append, List.length_take, List.length_singleton]
    omega
  have hno : ¬ 50 < (t.history.take (i + 1) ++ [t.annotations]).length := by
    rw [hlen2]
    omega
  have hcast : ((t.history.take (i + 1) ++ [t.annotations]).length : Int) - 1 = (i : Int) + 1 := by
    rw [hlen2]
    push_cast
    ring
  unfold saveHistory
  rw [if_pos hcond, hslice, if_neg hno, hcast]

/-- C4: if undo has moved the history index strictly below the last snapshot,
the next mutating operation (here ` addAnnotation`) first discards every
snapshot beyond the current index and then appends its new snapshot; right
after that mutation `canRedo` is false, the new snapshot is the last history
entry, and the index points at it. -/
theorem C4_truncation_on_mutation (s : Store) (selCat : Option Nat) (newId : Nat)
    (a : Annotation) (i : Nat)
    (hidx : s.historyIndex = (i : Int))
    (hmid : (i : Int) < (s.history.length : Int) - 1)
    (hbound : s.history.length ≤ 50) :
    ( addAnnotation s selCat newId a).history
        = s.history.take (i + 1) ++ [s.annotations ++ [ mkNewAnnotation selCat newId a]]
    ∧ canRedo ( addAnnotation s selCat newId a) = false
    ∧ ( addAnnotation s selCat newId a).history.getLast?
        = some ( addAnnotation s selCat newId a).annotations
    ∧ ( addAnnotation s selCat newId a).historyIndex = (i : Int) + 1 := by
  have htr := saveHistory_truncate
    { s with annotations := s.annotations ++ [ mkNewAnnotation selCat newId a] } i hidx hmid hbound
  have heq : addAnnotation s selCat newId a = saveHistory
      { s with annotations := s.annotations ++ [ mkNewAnnotation selCat newId a] } := rfl
  rw [heq, htr]
  refine ⟨rfl, ?_, ?_, rfl⟩
  · show decide ((i : Int) + 1 < ((s.history.take (i + 1)
        ++ [s.annotations ++ [ mkNewAnnotation selCat newId a]]).length : Int) - 1) = false
    rw [decide_eq_false_iff_not]
    simp only [List.length_append, List.length_take, List.length_singleton]
    omega
  · show (s.history.take (i + 1) ++ [s.annotations ++ [ mkNewAnnotation selCat newId a]]).getLast?
        = some (s.annotations ++ [ mkNewAnnotation selCat newId a])
    simp

/-- The concrete store of the C4 witness: two snapshots, index moved back to
0 by an undo. -/
def c4Store : Store :=
  { initStore with annotations := [], history := [[], [default]], historyIndex := 0 }

/-- Witness for C4: adding after the undo discards the forward snapshot. -/
theorem C4_truncation_on_mutation_witness :
    ( addAnnotation c4Store (some 1) 103 default).history
        = c4Store.history.take (0 + 1) ++ [c4Store.annotations ++ [ mkNewAnnotation (some 1) 103 default]]
    ∧ canRedo ( addAnnotation c4Store (some 1) 103 default) = false
    ∧ ( addAnnotation c4Store (some 1) 103 default).history.getLast?
        = some ( addAnnotation c4Store (some 1) 103 default).annotations
    ∧ ( addAnnotation c4Store (some 1) 103 default).historyIndex = ((0 : Nat) : Int) + 1 :=
  C4_truncation_on_mutation c4Store (some 1) 103 default 0 (by decide) (by decide) (by decide)


/-!  Claim C9: navigation symmetry of `goToPrevious` / `goToNext`.  -/

/-- Evaluation of `goToNextImage` when the guard holds and the incremented
cursor lands on an entry. -/
lemma goToNextImage_some (srv : Nat → List Annotation) (t : Store) (img : Image)
    (hcg : canGoNext t = true)
    (hji : jsIndex t.processedHistory (t.historyPosition + 1) = some img) :
    (goToNextImage srv t).1 =
      (if (saveHistory (reloadFor srv { t with historyPosition := t.historyPosition + 1 } img.id)).historyPosition
          = ((saveHistory (reloadFor srv { t with historyPosition := t.historyPosition + 1 } img.id)).processedHistory.length : Int) - 1
        then { saveHistory (reloadFor srv { t with historyPosition := t.historyPosition + 1 } img.id)
                with isInHistory := false }
        else saveHistory (reloadFor srv { t with historyPosition := t.historyPosition + 1 } img.id)) := by
  unfold goToNextImage
  rw [if_pos hcg]
  dsimp only
  rw [hji]

/-- `goToNextImage` from a browsing state whose cursor sits one below the
head of the processed stack: the head entry is reloaded from the server and
browsing mode is left. -/
lemma goToNext_at_penultimate (srv : Nat → List Annotation) (t : Store) (last : Image)
    (hin : t.isInHistory = true)
    (hlast : t.processedHistory.getLast? = some last)
    (hpos : t.historyPosition = (t.processedHistory.length : Int) - 2) :
    (goToNextImage srv t).1.currentImage = some (fetchedImage srv last.id)
    ∧ (goToNextImage srv t).1.isInHistory = false := by
  have hlen : 0 < t.processedHistory.length := by
    refine List.length_pos.mpr (fun hc => ?_)
    rw [← List.getLast?_eq_none_iff] at hc
    rw [hc] at hlast
    exact Option.noConfusion hlast
  have hcg : canGoNext t = true := by
    simp only [canGoNext, hin, Bool.true_and, decide_eq_true_eq]
    omega
  have hji : jsIndex t.processedHistory (t.historyPosition + 1) = some last := by
    rw [jsIndex_nonneg _ _ (by omega)]
    have htn : (t.historyPosition + 1).toNat = t.processedHistory.length - 1 := by omega
    rw [htn, ← List.getLast?_eq_getElem?]
    exact hlast
  have heq := goToNextImage_some srv t last hcg hji
  obtain ⟨-, -, -, -, hcur, -, hph, hpos2, -⟩ :=
    saveHistory_spec (reloadFor srv { t with historyPosition := t.historyPosition + 1 } last.id)
  have hcond : (saveHistory (reloadFor srv { t with historyPosition := t.historyPosition + 1 } last.id)).historyPosition
      = ((saveHistory (reloadFor srv { t with historyPosition := t.historyPosition + 1 } last.id)).processedHistory.length : Int) - 1 := by
    rw [hpos2, hph]
    show t.historyPosition + 1 = (t.processedHistory.length : Int) - 1
    omega
  rw [heq, if_pos hcond]
  constructor
  · show (saveHistory (reloadFor srv { t with historyPosition := t.historyPosition + 1 } last.id)).currentImage
        = some (fetchedImage srv last.id)
    rw [hcur]
    rfl
  · rfl

lemma reloadFor_processedHistory (srv : Nat → List Annotation) (t : Store) (i : Nat) :
    (reloadFor srv t i).processedHistory = t.processedHistory := rfl

lemma reloadFor_historyPosition (srv : Nat → List Annotation) (t : Store) (i : Nat) :
    (reloadFor srv t i).historyPosition = t.historyPosition := rfl

lemma reloadFor_isInHistory (srv : Nat → List Annotation) (t : Store) (i : Nat) :
    (reloadFor srv t i).isInHistory = t.isInHistory := rfl

/-- `goToPreviousImage` from a non-browsing state with a current image, a
non-empty processed stack and the cursor at its head: afterwards the store is
browsing, the top stack entry carries the id of the previous current image,
and the cursor sits exactly one below the (possibly grown) stack's head. -/
lemma goToPrev_entering (srv : Nat → List Annotation) (s : Store) (c : Image)
    (hin : s.isInHistory = false) (hcur : s.currentImage = some c)
    (hne : s.processedHistory ≠ [])
    (hpos : s.historyPosition = (s.processedHistory.length : Int) - 1) :
    ∃ e : Image, e.id = c.id
      ∧ (goToPreviousImage srv s).1.processedHistory.getLast? = some e
      ∧ (goToPreviousImage srv s).1.historyPosition
          = ((goToPreviousImage srv s).1.processedHistory.length : Int) - 2
      ∧ (goToPreviousImage srv s).1.isInHistory = true := by
  have hlen : 0 < s.processedHistory.length := List.length_pos.mpr hne
  have hcgp : canGoPrevious s = true := by
    simp only [canGoPrevious, decide_eq_true_eq]
    exact hlen
  have hgate : ¬ s.isInHistory = true ∧ s.currentImage.isSome = true := by
    constructor
    · rw [hin]
      simp
    · rw [hcur]
      rfl
  obtain ⟨last, hlast⟩ : ∃ last, s.processedHistory.getLast? = some last := by
    cases hl : s.processedHistory.getLast? with
    | none => exact absurd (List.getLast?_eq_none_iff.mp hl) hne
    | some x => exact ⟨x, rfl⟩
  unfold goToPreviousImage
  rw [if_pos hcgp]
  try dsimp only
  rw [if_pos hgate, hcur]
  try dsimp only
  rw [hlast]
  try dsimp only
  by_cases hid : last.id = c.id
  · have hd : decide (last.id ≠ c.id) = false := by simp [hid]
    rw [hd, if_neg (by simp : ¬ false = true)]
    try dsimp only
    rcases hj : jsIndex s.processedHistory (s.historyPosition - 1) with _ | prevImage
    · try dsimp only
      refine ⟨last, hid, hlast, ?_, rfl⟩
      show s.historyPosition - 1 = (s.processedHistory.length : Int) - 2
      omega
    · try dsimp only
      obtain ⟨-, -, -, -, -, -, hph3, hpos3, hin3⟩ :=
        saveHistory_spec (reloadFor srv
          { s with isInHistory := true, historyPosition := s.historyPosition - 1 } prevImage.id)
      refine ⟨last, hid, ?_, ?_, ?_⟩
      · rw [hph3]
        exact hlast
      · rw [hpos3, hph3]
        show s.historyPosition - 1 = (s.processedHistory.length : Int) - 2
        omega
      · rw [hin3]
        rfl
  · have hd : decide (last.id ≠ c.id) = true := by simp [hid]
    rw [hd, if_pos (rfl : (true : Bool) = true)]
    try dsimp only
    have hLp : (s.processedHistory ++ [{ c with annotations := s.annotations }]).length
        = s.processedHistory.length + 1 := by simp
    have hj : jsIndex (s.processedHistory ++ [{ c with annotations := s.annotations }])
        ((((s.processedHistory ++ [{ c with annotations := s.annotations }]).length : Int) - 1) - 1)
        = some last := by
      rw [jsIndex_nonneg _ _ (by rw [hLp]; omega)]
      have htn : ((((s.processedHistory ++ [{ c with annotations := s.annotations }]).length : Int) - 1) - 1).toNat
          = s.processedHistory.length - 1 := by
        rw [hLp]
        omega
      rw [htn, List.getElem?_append_left (by omega), ← List.getLast?_eq_getElem?]
      exact hlast
    rw [hj]
    try dsimp only
    obtain ⟨-, -, -, -, -, -, hph3, hpos3, hin3⟩ :=
      saveHistory_spec (reloadFor srv
        { s with
            currentImage := some c
            processedHistory := s.processedHistory ++ [{ c with annotations := s.annotations }]
            historyPosition :=
              (((s.processedHistory ++ [{ c with annotations := s.annotations }]).length : Int) - 1)
                - 1
            isInHistory := true } last.id)
    refine ⟨{ c with annotations := s.annotations }, rfl, ?_, ?_, ?_⟩
    · rw [hph3, reloadFor_processedHistory]
      try dsimp only
      simp
    · rw [hpos3, hph3, reloadFor_historyPosition, reloadFor_processedHistory]
      try dsimp only
      omega
    · rw [hin3, reloadFor_isInHistory]

/-- C9 (amended): when `goToPreviousImage` is enabled (processed history
non-empty), a current image is present, and the store is NOT already
browsing (so its cursor sits at the head of the processed stack, as it
always does outside browsing mode), then `goToPreviousImage` immediately
followed by `goToNextImage` restores the current image id and leaves
browsing mode. -/
theorem C9_nav_symmetry (srv : Nat → List Annotation) (s : Store) (c : Image)
    (hin : s.isInHistory = false)
    (hcur : s.currentImage = some c)
    (hne : s.processedHistory ≠ [])
    (hpos : s.historyPosition = (s.processedHistory.length : Int) - 1) :
    (goToNextImage srv (goToPreviousImage srv s).1).1.currentImage.map Image.id = some c.id
    ∧ (goToNextImage srv (goToPreviousImage srv s).1).1.isInHistory = false := by
  obtain ⟨e, heid, hlast, hpos2, hin2⟩ := goToPrev_entering srv s c hin hcur hne hpos
  obtain ⟨h1, h2⟩ := goToNext_at_penultimate srv _ e hin2 hlast hpos2
  refine ⟨?_, h2⟩
  rw [h1]
  show some (fetchedImage srv e.id).id = some c.id
  rw [show (fetchedImage srv e.id).id = e.id from rfl, heid]

/-- The server oracle of the concrete C9 runs: every image currently has no
annotations on the server. -/
def c9Srv : Nat → List Annotation := fun _ => []

/-- The concrete store of the C9 witness: image 1 was just saved, so the
processed stack holds it, the cursor is at its head, and the store is not
browsing. -/
def c9Store : Store :=
  { initStore with
      currentImage := some { id := 1, annotations := [] }
      history := [[]]
      historyIndex := 0
      processedHistory := [{ id := 1, annotations := [] }]
      historyPosition := 0 }

/-- Witness for C9 (amended) at the concrete store `c9Store`. -/
theorem C9_nav_symmetry_witness :
    (goToNextImage c9Srv (goToPreviousImage c9Srv c9Store).1).1.currentImage.map Image.id
        = some (Image.mk 1 []).id
    ∧ (goToNextImage c9Srv (goToPreviousImage c9Srv c9Store).1).1.isInHistory = false :=
  C9_nav_symmetry c9Srv c9Store { id := 1, annotations := [] } rfl rfl (by decide) (by decide)

/-- Start state of the C9 counterexample run: one queued image. -/
def c9CexStart : Store := { initStore with imageQueue := [{ id := 1, annotations := [] }] }

/-- The reachable state that breaks the claim as stated: advance onto
image 1, save it (pushing it onto the processed stack), then press
`goToPreviousImage` once — the cursor runs off the bottom of the one-entry
stack to `-1` while browsing mode stays on. -/
def c9CexStore : Store :=
  (goToPreviousImage c9Srv (saveAnnotations (getNextFromQueue c9CexStart).1 true).1).1

/-- C9 counterexample: in the reachable state `c9CexStore`,
`goToPreviousImage` is enabled (processed history non-empty) and a current
image is present, yet calling `goToPreviousImage` then `goToNextImage`
leaves `isInHistory = true` — the pair does NOT exit browsing mode, contrary
to the claim as stated. -/
theorem C9_counterexample :
    canGoPrevious c9CexStore = true
    ∧ c9CexStore.currentImage.isSome = true
    ∧ (goToNextImage c9Srv (goToPreviousImage c9Srv c9CexStore).1).1.isInHistory = true := by
  decide
